import Mathlib

/-!
Shallow embedding of the state-replication core of the `cavetronic` repository:
the frame framer (`src/transport/frameDelta.ts`), the id remapper
(`buildRawIdMap`), the client reconciliation driver
(`v_s_tick_applyNetworkMessages`), the server replication driver
(`l_s_tick_handleConnections` / `l_s_tick_serializeAndSend` in the order fixed
by `createLecs`), and the transport layer (`HostTransport`,
`WorkerTransportHost` / `WorkerTransportClient`).

Byte buffers (`ArrayBuffer`) are modelled as `List Nat` of byte values; a JS
`DataView.setUint32` wraps its argument modulo `2 ^ 32` (ToUint32), a
`DataView.getUint32` read past the end of the buffer throws (modelled as
`Option.none`), and `ArrayBuffer.slice` clamps its range to the buffer, which
`List.take` / `List.drop` reproduce exactly.  JS `Map` is modelled as an
insertion-ordered association list with unique keys (`jsMapSet` updates in
place, `jsMapDelete` removes the key), and JS `Set` as an insertion-ordered
duplicate-free list.
-/

/-- Little-endian byte decomposition of a `u32` as written by
`DataView.setUint32(offset, n, true)`; the value wraps modulo `2 ^ 32`. -/
def u32le (n : Nat) : List Nat :=
  [n % 256, n / 256 % 256, n / 65536 % 256, n / 16777216 % 256]

/-- Little-endian `u32` read at offset `i`, as `DataView.getUint32(i, true)`
does once the bounds check has passed. -/
def readU32 (l : List Nat) (i : Nat) : Nat :=
  l.getD i 0 + 256 * l.getD (i + 1) 0 + 65536 * l.getD (i + 2) 0 +
    16777216 * l.getD (i + 3) 0

/-- Embedding of `packDelta` (src/transport/frameDelta.ts): layout
`[u32 frame][u32 observerLen][observer][soa]`. -/
def packDelta (frame : Nat) (observer soa : List Nat) : List Nat :=
  u32le frame ++ u32le observer.length ++ observer ++ soa

/-- Embedding of `unpackDelta` (src/transport/frameDelta.ts).  The two header
reads throw on a buffer shorter than 8 bytes (`none`); the two payload slices
clamp like `ArrayBuffer.slice`. -/
def unpackDelta (buffer : List Nat) : Option (Nat × List Nat × List Nat) :=
  if buffer.length < 8 then none
  else
    let frame := readU32 buffer 0
    let observerLen := readU32 buffer 4
    some (frame, (buffer.take (8 + observerLen)).drop 8, buffer.drop (8 + observerLen))

/-- Embedding of `packSnapshot` (src/transport/frameDelta.ts): layout
`[u32 frame][snapshot]`. -/
def packSnapshot (frame : Nat) (snapshot : List Nat) : List Nat :=
  u32le frame ++ snapshot

/-- Embedding of `unpackSnapshot` (src/transport/frameDelta.ts): the header
read throws on a buffer shorter than 4 bytes. -/
def unpackSnapshot (buffer : List Nat) : Option (Nat × List Nat) :=
  if buffer.length < 4 then none
  else some (readU32 buffer 0, buffer.drop 4)

theorem u32le_length (n : Nat) : (u32le n).length = 4 := rfl

theorem readU32_u32le_append (n : Nat) (r : List Nat) :
    readU32 (u32le n ++ r) 0 = n % 4294967296 := by
  simp only [readU32, u32le, List.cons_append, List.nil_append, List.getD_cons_zero,
    List.getD_cons_succ]
  omega

theorem readU32_cons4 (a b c d : Nat) (r : List Nat) (i : Nat) :
    readU32 (a :: b :: c :: d :: r) (i + 4) = readU32 r i := by
  simp only [readU32, List.getD_cons_succ]

theorem packDelta_length (f : Nat) (o s : List Nat) :
    (packDelta f o s).length = 8 + o.length + s.length := by
  simp [packDelta, u32le]
  omega

/-- Round trip of the delta framing, valid whenever the observer payload's
length fits the `u32` length field. -/
theorem unpackDelta_packDelta (f : Nat) (o s : List Nat) (hf : f < 4294967296)
    (ho : o.length < 4294967296) :
    unpackDelta (packDelta f o s) = some (f, o, s) := by
  have hlen := packDelta_length f o s
  have hframe : readU32 (packDelta f o s) 0 = f := by
    rw [show packDelta f o s = u32le f ++ (u32le o.length ++ (o ++ s)) by
      simp [packDelta], readU32_u32le_append, Nat.mod_eq_of_lt hf]
  have hobsLen : readU32 (packDelta f o s) 4 = o.length := by
    have : packDelta f o s =
        (f % 256) :: (f / 256 % 256) :: (f / 65536 % 256) :: (f / 16777216 % 256) ::
          (u32le o.length ++ (o ++ s)) := by
      simp [packDelta, u32le]
    rw [this]
    have := readU32_cons4 (f % 256) (f / 256 % 256) (f / 65536 % 256)
      (f / 16777216 % 256) (u32le o.length ++ (o ++ s)) 0
    simpa [readU32_u32le_append, Nat.mod_eq_of_lt ho] using this
  have hdrop8 : (packDelta f o s).drop 8 = o ++ s := by
    have h8 : (u32le f ++ u32le o.length).length = 8 := by simp [u32le]
    have : packDelta f o s = (u32le f ++ u32le o.length) ++ (o ++ s) := by
      simp [packDelta]
    rw [this, ← h8, List.drop_left]
  unfold unpackDelta
  rw [if_neg (by omega)]
  refine congrArg some ?_
  refine Prod.ext hframe (Prod.ext ?_ ?_)
  · show ((packDelta f o s).take (8 + readU32 (packDelta f o s) 4)).drop 8 = o
    rw [hobsLen, List.drop_take, Nat.add_sub_cancel_left, hdrop8, List.take_left]
  · show (packDelta f o s).drop (8 + readU32 (packDelta f o s) 4) = s
    rw [hobsLen]
    have h8 : (u32le f ++ u32le o.length).length = 8 := by simp [u32le]
    have hsplit : packDelta f o s = (u32le f ++ u32le o.length) ++ (o ++ s) := by
      simp [packDelta]
    rw [hsplit, ← h8, List.drop_append, List.drop_left]

/-- Round trip of the snapshot framing, for any payload. -/
theorem unpackSnapshot_packSnapshot (f : Nat) (b : List Nat) (hf : f < 4294967296) :
    unpackSnapshot (packSnapshot f b) = some (f, b) := by
  have hlen : (packSnapshot f b).length = 4 + b.length := by
    rw [packSnapshot, List.length_append, u32le_length]
  unfold unpackSnapshot
  rw [if_neg (by omega)]
  refine congrArg some (Prod.ext ?_ ?_)
  · show readU32 (packSnapshot f b) 0 = f
    rw [packSnapshot, readU32_u32le_append, Nat.mod_eq_of_lt hf]
  · show (packSnapshot f b).drop 4 = b
    rw [packSnapshot, ← u32le_length f, List.drop_left]

/-- Observer payloads of exactly `2 ^ 32` bytes wrap the length prefix to 0,
so unpacking yields an empty observer and hands the whole rest to the soa. -/
theorem unpackDelta_packDelta_wrap (o s : List Nat) (ho : o.length = 4294967296) :
    unpackDelta (packDelta 0 o s) = some (0, [], o ++ s) := by
  have hlen := packDelta_length 0 o s
  have hframe : readU32 (packDelta 0 o s) 0 = 0 := by
    rw [show packDelta 0 o s = u32le 0 ++ (u32le o.length ++ (o ++ s)) from by
      simp [packDelta], readU32_u32le_append]
  have hobs : readU32 (packDelta 0 o s) 4 = 0 := by
    rw [show packDelta 0 o s = 0 :: 0 :: 0 :: 0 :: (u32le o.length ++ (o ++ s)) from by
      simp [packDelta, u32le]]
    rw [show (4 : Nat) = 0 + 4 from rfl, readU32_cons4, readU32_u32le_append, ho,
      Nat.mod_self]
  have hdrop8 : (packDelta 0 o s).drop 8 = o ++ s := by
    have h8 : (u32le 0 ++ u32le o.length).length = 8 := by simp [u32le]
    rw [show packDelta 0 o s = (u32le 0 ++ u32le o.length) ++ (o ++ s) from by
      simp [packDelta], ← h8, List.drop_left]
  rw [unpackDelta, if_neg (by omega)]
  simp only [hframe, hobs, Nat.add_zero, List.drop_take, Nat.sub_self, List.take_zero,
    hdrop8]

/-- C1 (counterexample): `packDelta` stores the observer length in a `u32`
field, so for an observer payload of `2 ^ 32` bytes the length prefix wraps to
`0` and the round trip returns an empty observer instead of the input. -/
theorem unpackDelta_packDelta_lengthWrap_cex :
    unpackDelta (packDelta 0 (List.replicate 4294967296 0) [7]) ≠
      some (0, List.replicate 4294967296 0, [7]) := by
  intro h
  rw [unpackDelta_packDelta_wrap _ _ (List.length_replicate 4294967296 0)] at h
  rw [Option.some.injEq, Prod.ext_iff] at h
  have h2 := h.2
  rw [Prod.ext_iff] at h2
  have hl := congrArg List.length h2.1
  rw [List.length_nil, List.length_replicate] at hl
  exact absurd hl (by norm_num)

/-- C1 (amended): the framer round-trips — `unpackDelta ∘ packDelta` and
`unpackSnapshot ∘ packSnapshot` return the frame and the payloads byte for
byte — for every frame below `2 ^ 32` and, for the delta message, every
observer payload shorter than `2 ^ 32` bytes (the width of the wire length
field); the soa and snapshot payloads are unconstrained. -/
theorem frameFramer_roundTrip (f : Nat) (o s b : List Nat) (hf : f < 4294967296)
    (ho : o.length < 4294967296) :
    unpackDelta (packDelta f o s) = some (f, o, s) ∧
      unpackSnapshot (packSnapshot f b) = some (f, b) :=
  ⟨unpackDelta_packDelta f o s hf ho, unpackSnapshot_packSnapshot f b hf⟩

/-- Witness for the round-trip law at frame 7 with concrete payloads. -/
theorem frameFramer_roundTrip_witness :
    (7 : Nat) < 4294967296 ∧ ([1, 2] : List Nat).length < 4294967296 ∧
      unpackDelta (packDelta 7 [1, 2] [3]) = some (7, [1, 2], [3]) ∧
      unpackSnapshot (packSnapshot 7 [9]) = some (7, [9]) := by
  have h := frameFramer_roundTrip 7 [1, 2] [3] [9] (by norm_num) (by norm_num)
  exact ⟨by norm_num, by norm_num, h.1, h.2⟩

/-- C5: decoding a delta message whose `u32` observer-length prefix (here 100)
exceeds the single byte remaining after the 8-byte header returns
`some` with a silently truncated observer payload `[42]` and an empty soa —
`ArrayBuffer.slice` clamps — instead of signalling a decode error; only
buffers shorter than the fixed header throw. -/
theorem unpackDelta_oversizedLen_silentTruncation :
    unpackDelta [0, 0, 0, 0, 100, 0, 0, 0, 42] = some (0, [42], []) ∧
      unpackDelta [0, 0, 0, 0, 100] = none ∧ unpackSnapshot [0, 0] = none := by
  refine ⟨?_, rfl, rfl⟩
  decide

/-- Lookup in an insertion-ordered association list, as `Map.get`. -/
def jsLookup {α β : Type _} [DecidableEq α] : List (α × β) → α → Option β
  | [], _ => none
  | (k, v) :: rest, key => if k = key then some v else jsLookup rest key

/-- Insertion into an insertion-ordered association list, as `Map.set`: an
existing key keeps its position and gets the new value, a new key is appended. -/
def jsMapSet {α β : Type _} [DecidableEq α] : List (α × β) → α → β → List (α × β)
  | [], key, value => [(key, value)]
  | (k, v) :: rest, key, value =>
      if k = key then (key, value) :: rest else (k, v) :: jsMapSet rest key value

/-- Removal from an association list, as `Map.delete` (keys are unique, so
filtering the key out removes exactly its entry). -/
def jsMapDelete {α β : Type _} [DecidableEq α] (m : List (α × β)) (k : α) :
    List (α × β) :=
  m.filter (fun kv => decide (kv.1 ≠ k))

/-- Embedding of `ENTITY_MASK = (1 << 20) - 1` (buildRawIdMap.ts). -/
def ENTITY_MASK : Nat := (1 <<< 20) - 1

/-- Version-bit width passed to `withVersioning(12)` in `createEcsWorld`, which
leaves `32 - 12 = 20` raw-slot bits. -/
def versionBits : Nat := 12

/-- Embedding of `buildRawIdMap` (src/transport/buildRawIdMap.ts): masks key
and value of every entry into a fresh map, in iteration order. -/
def buildRawIdMap (observerIdMap : List (Nat × Nat)) : List (Nat × Nat) :=
  observerIdMap.foldl
    (fun raw kv => jsMapSet raw (kv.1 &&& ENTITY_MASK) (kv.2 &&& ENTITY_MASK)) []

/-- Masked value of the last entry of the map whose masked key is `x` — the
entry that survives `buildRawIdMap` when several keys share their slot bits. -/
def lastMaskedValue : List (Nat × Nat) → Nat → Option Nat
  | [], _ => none
  | kv :: rest, x =>
      match lastMaskedValue rest x with
      | some v => some v
      | none =>
          if kv.1 &&& ENTITY_MASK = x then some (kv.2 &&& ENTITY_MASK) else none

theorem jsLookup_jsMapSet {α β : Type _} [DecidableEq α] (m : List (α × β))
    (k x : α) (v : β) :
    jsLookup (jsMapSet m k v) x = if k = x then some v else jsLookup m x := by
  induction m with
  | nil => simp [jsMapSet, jsLookup]
  | cons kv rest ih =>
      obtain ⟨k', v'⟩ := kv
      by_cases hk : k' = k
      · subst hk
        by_cases hx : k' = x <;> simp [jsMapSet, jsLookup, hx]
      · by_cases hx : k' = x
        · subst hx
          have hkk : ¬(k = k') := fun h => hk h.symm
          simp [jsMapSet, hk, jsLookup, hkk]
        · simp [jsMapSet, hk, jsLookup, hx, ih]

theorem buildRawIdMap_foldl (M : List (Nat × Nat)) (acc : List (Nat × Nat))
    (x : Nat) :
    jsLookup
      (M.foldl
        (fun raw kv => jsMapSet raw (kv.1 &&& ENTITY_MASK) (kv.2 &&& ENTITY_MASK))
        acc) x =
      match lastMaskedValue M x with
      | some v => some v
      | none => jsLookup acc x := by
  induction M generalizing acc with
  | nil => simp [lastMaskedValue]
  | cons kv rest ih =>
      rw [List.foldl_cons, ih]
      cases hrest : lastMaskedValue rest x with
      | some v => simp [lastMaskedValue, hrest]
      | none =>
          simp only [lastMaskedValue, hrest, jsLookup_jsMapSet]
          by_cases hx : kv.1 &&& ENTITY_MASK = x
          · simp [hx]
          · simp [hx]

theorem jsMapSet_keys {α β : Type _} [DecidableEq α] (m : List (α × β)) (k : α)
    (v : β) :
    (jsMapSet m k v).map Prod.fst =
      if k ∈ m.map Prod.fst then m.map Prod.fst else m.map Prod.fst ++ [k] := by
  induction m with
  | nil => simp [jsMapSet]
  | cons kv rest ih =>
      obtain ⟨k', v'⟩ := kv
      by_cases hk : k' = k
      · subst hk
        simp [jsMapSet]
      · have hkk : ¬(k = k') := fun h => hk h.symm
        simp only [jsMapSet, if_neg hk, List.map_cons, ih, List.mem_cons, hkk, false_or]
        by_cases hm : k ∈ rest.map Prod.fst <;> simp [hm]

theorem jsMapSet_keys_nodup {α β : Type _} [DecidableEq α] (m : List (α × β))
    (k : α) (v : β) (h : (m.map Prod.fst).Nodup) :
    ((jsMapSet m k v).map Prod.fst).Nodup := by
  rw [jsMapSet_keys]
  by_cases hm : k ∈ m.map Prod.fst
  · simpa [hm] using h
  · simpa [hm] using List.Nodup.append h (List.nodup_singleton k) (by simpa using hm)

theorem buildRawIdMap_keys_nodup (M : List (Nat × Nat)) :
    ((buildRawIdMap M).map Prod.fst).Nodup := by
  have general :
      ∀ acc : List (Nat × Nat), (acc.map Prod.fst).Nodup →
        ((M.foldl
          (fun raw kv => jsMapSet raw (kv.1 &&& ENTITY_MASK) (kv.2 &&& ENTITY_MASK))
          acc).map Prod.fst).Nodup := by
    induction M with
    | nil => intro acc h; simpa using h
    | cons kv rest ih =>
        intro acc h
        rw [List.foldl_cons]
        exact ih _ (jsMapSet_keys_nodup _ _ _ h)
  exact general [] (by simp)

/-- C6 (counterexample): two versioned keys that share their 20 slot bits
(`1` and `2 ^ 20 + 1`) collide after masking, so the result holds only the
later entry `(1, 6)` and the claimed entry set — one masked pair per entry of
the input and nothing else — is not what `buildRawIdMap` returns. -/
theorem buildRawIdMap_collision_cex :
    ¬(∀ p : Nat × Nat,
        p ∈ buildRawIdMap [(1, 5), (1048577, 6)] ↔
          ∃ kv ∈ [((1 : Nat), (5 : Nat)), (1048577, 6)],
            p = (kv.1 &&& ENTITY_MASK, kv.2 &&& ENTITY_MASK)) := by
  intro h
  have hmem : ((1 : Nat), (5 : Nat)) ∈ buildRawIdMap [(1, 5), (1048577, 6)] :=
    (h (1, 5)).mpr ⟨(1, 5), by simp, by decide⟩
  exact absurd hmem (by decide)

/-- C6 (amended): `buildRawIdMap` is a pure function of the versioned id map;
looking up a raw key `x` in its result yields the masked value
`v &&& ENTITY_MASK` of the *last* entry `(k, v)` whose masked key
`k &&& ENTITY_MASK` is `x` — so when no two keys share slot bits the result is
exactly the entrywise-masked map — its keys stay duplicate-free, and the mask
keeps exactly the `32 - versionBits = 20` raw-slot bits fixed at world
creation. -/
theorem buildRawIdMap_characterization (M : List (Nat × Nat)) (x : Nat) :
    jsLookup (buildRawIdMap M) x = lastMaskedValue M x ∧
      ((buildRawIdMap M).map Prod.fst).Nodup ∧
      ENTITY_MASK = 2 ^ (32 - versionBits) - 1 := by
  refine ⟨?_, buildRawIdMap_keys_nodup M, by decide⟩
  rw [buildRawIdMap, buildRawIdMap_foldl]
  cases lastMaskedValue M x <;> simp [jsLookup]

/-- Message-id constant `MSG_DELTA = 1` (src/constants.ts). -/
def MSG_DELTA : Nat := 1

/-- Message-id constant `MSG_SNAPSHOT = 3` (src/constants.ts). -/
def MSG_SNAPSHOT : Nat := 3

/-- Message-id constant `MSG_USER_INPUT = 11` (src/constants.ts). -/
def MSG_USER_INPUT : Nat := 11

/-- An entry of the client `MessageQueue` (src/transport/MessageQueue.ts). -/
structure QueuedMessage where
  messageId : Nat
  data : List Nat

/-- Deserialization callbacks of `DeserializeContext`: the bitecs
observer/soa/snapshot deserializers are external collaborators, modelled as
opaque transformers of the client world (which includes the id map they
mutate). -/
structure DeserOps (W : Type _) where
  snapshotDeserialize : W → List Nat → W
  observerDeserialize : W → List Nat → W
  soaDeserialize : W → List Nat → W

/-- Mutable state read by the reconciliation driver: the snapshot-frame
marker of `DeserializeContext` (initialized to `-1`) and the client world. -/
structure DeserState (W : Type _) where
  snapshotFrame : Int
  world : W

/-- One iteration of the message loop of `v_s_tick_applyNetworkMessages`
(worlds/VECS tick system): snapshot messages set the marker and then apply
destructively, delta messages at or below the marker are skipped, fresh delta
messages apply observer then soa decoding, other message ids are ignored.
`none` models a decode exception escaping the loop. -/
def applyNetworkMessage {W : Type _} (ops : DeserOps W) (ctx : DeserState W)
    (msg : QueuedMessage) : Option (DeserState W) :=
  if msg.messageId = MSG_SNAPSHOT then
    match unpackSnapshot msg.data with
    | none => none
    | some (frame, snapshot) =>
        some ⟨(frame : Int), ops.snapshotDeserialize ctx.world snapshot⟩
  else if msg.messageId = MSG_DELTA then
    match unpackDelta msg.data with
    | none => none
    | some (frame, observer, soa) =>
        if (frame : Int) ≤ ctx.snapshotFrame then some ctx
        else
          some ⟨ctx.snapshotFrame,
            ops.soaDeserialize (ops.observerDeserialize ctx.world observer) soa⟩
  else some ctx

/-- The drained messages processed in arrival order; an exception aborts the
remainder of the loop with the state reached so far (the tick wrapper of
`createEcsWorld` catches it). -/
def applyNetworkMessages {W : Type _} (ops : DeserOps W) :
    DeserState W → List QueuedMessage → DeserState W
  | ctx, [] => ctx
  | ctx, msg :: rest =>
      match applyNetworkMessage ops ctx msg with
      | none => ctx
      | some ctx' => applyNetworkMessages ops ctx' rest

/-- Embedding of `v_s_tick_applyNetworkMessages`: `queue.drain()` empties the
queue atomically and the driver processes every drained message in order. -/
def v_s_tick_applyNetworkMessages {W : Type _} (ops : DeserOps W)
    (ctx : DeserState W) (queue : List QueuedMessage) :
    DeserState W × List QueuedMessage :=
  (applyNetworkMessages ops ctx queue, [])

/-- World effect of decoding one delta payload: observer decoding first, then
soa decoding. -/
def applyDeltaBody {W : Type _} (ops : DeserOps W) (w : W) (data : List Nat) : W :=
  match unpackDelta data with
  | some (_, observer, soa) => ops.soaDeserialize (ops.observerDeserialize w observer) soa
  | none => w

/-- C2: the reconciliation driver drains the queue atomically and processes it
in arrival order; a snapshot message sets the marker to its frame and is then
applied; a delta at or below the marker leaves the state untouched; a fresh
delta applies observer decoding before soa decoding. -/
theorem reconciliationDriver_dedup {W : Type _} (ops : DeserOps W) :
    (∀ (ctx : DeserState W) (queue : List QueuedMessage),
        v_s_tick_applyNetworkMessages ops ctx queue =
          (applyNetworkMessages ops ctx queue, [])) ∧
      (∀ (ctx ctx' : DeserState W) (msg : QueuedMessage) (rest : List QueuedMessage),
        applyNetworkMessage ops ctx msg = some ctx' →
          applyNetworkMessages ops ctx (msg :: rest) =
            applyNetworkMessages ops ctx' rest) ∧
      (∀ (ctx : DeserState W) (data snap : List Nat) (f : Nat),
        unpackSnapshot data = some (f, snap) →
          applyNetworkMessage ops ctx ⟨MSG_SNAPSHOT, data⟩ =
            some ⟨(f : Int), ops.snapshotDeserialize ctx.world snap⟩) ∧
      (∀ (ctx : DeserState W) (data o s : List Nat) (f : Nat),
        unpackDelta data = some (f, o, s) → (f : Int) ≤ ctx.snapshotFrame →
          applyNetworkMessage ops ctx ⟨MSG_DELTA, data⟩ = some ctx) ∧
      (∀ (ctx : DeserState W) (data o s : List Nat) (f : Nat),
        unpackDelta data = some (f, o, s) → ¬(f : Int) ≤ ctx.snapshotFrame →
          applyNetworkMessage ops ctx ⟨MSG_DELTA, data⟩ =
            some ⟨ctx.snapshotFrame,
              ops.soaDeserialize (ops.observerDeserialize ctx.world o) s⟩) := by
  refine ⟨fun ctx queue => rfl, ?_, ?_, ?_, ?_⟩
  · intro ctx ctx' msg rest h
    simp only [applyNetworkMessages, h]
  · intro ctx data snap f h
    simp [applyNetworkMessage, MSG_SNAPSHOT, h]
  · intro ctx data o s f h hle
    simp [applyNetworkMessage, MSG_SNAPSHOT, MSG_DELTA, h, hle]
  · intro ctx data o s f h hle
    simp [applyNetworkMessage, MSG_SNAPSHOT, MSG_DELTA, h, hle]

/-- Concrete deserializer callbacks used to exercise the driver theorems. -/
def natDeserOps : DeserOps Nat :=
  ⟨fun w b => w + 1000 * (b.length + 1), fun w b => 2 * w + b.length,
    fun w b => 3 * w + b.length⟩

/-- Witness for the reconciliation-driver theorem: a snapshot message, a stale
delta (frame 4 ≤ marker 5) and a fresh delta (frame 6 > marker 5) at concrete
inputs. -/
theorem reconciliationDriver_dedup_witness :
    applyNetworkMessage natDeserOps ⟨5, 0⟩ ⟨MSG_SNAPSHOT, packSnapshot 9 [1, 2]⟩ =
        some ⟨9, 3000⟩ ∧
      applyNetworkMessage natDeserOps ⟨5, 10⟩ ⟨MSG_DELTA, packDelta 4 [7] [8, 9]⟩ =
        some ⟨5, 10⟩ ∧
      applyNetworkMessage natDeserOps ⟨5, 10⟩ ⟨MSG_DELTA, packDelta 6 [7] [8, 9]⟩ =
        some ⟨5, 65⟩ := by
  have h := reconciliationDriver_dedup natDeserOps
  refine ⟨?_, ?_, ?_⟩
  · exact h.2.2.1 ⟨5, 0⟩ _ [1, 2] 9 (by decide)
  · exact h.2.2.2.1 ⟨5, 10⟩ _ [7] [8, 9] 4 (by decide) (by decide)
  · exact h.2.2.2.2 ⟨5, 10⟩ _ [7] [8, 9] 6 (by decide) (by decide)

/-- C9: with the marker still at its initial `-1` (`snapshotFrame = -1` in
`DeserializeContext`) and no snapshot in the drained queue, the discard test
`frame <= snapshotFrame` never fires — every well-formed delta message is
fully decoded (observer then soa) and the marker stays `-1`. -/
theorem preSnapshot_noDeltaDiscarded {W : Type _} (ops : DeserOps W) (w : W)
    (queue : List QueuedMessage)
    (hNoSnap : ∀ msg ∈ queue, msg.messageId ≠ MSG_SNAPSHOT)
    (hDelta : ∀ msg ∈ queue, msg.messageId = MSG_DELTA → 8 ≤ msg.data.length) :
    applyNetworkMessages ops ⟨-1, w⟩ queue =
      ⟨-1,
        (queue.filter (fun msg => msg.messageId == MSG_DELTA)).foldl
          (fun w' msg => applyDeltaBody ops w' msg.data) w⟩ := by
  induction queue generalizing w with
  | nil => rfl
  | cons msg rest ih =>
      have hns : msg.messageId ≠ MSG_SNAPSHOT := hNoSnap msg (by simp)
      by_cases hd : msg.messageId = MSG_DELTA
      · have hlen : 8 ≤ msg.data.length := hDelta msg (by simp) hd
        obtain ⟨f, o, s, hup⟩ : ∃ f o s, unpackDelta msg.data = some (f, o, s) := by
          rw [unpackDelta, if_neg (by omega)]
          exact ⟨_, _, _, rfl⟩
        have hstep : applyNetworkMessage ops ⟨-1, w⟩ msg =
            some ⟨-1, ops.soaDeserialize (ops.observerDeserialize w o) s⟩ := by
          have hfr : ¬(f : Int) ≤ (-1 : Int) := by
            have := Int.natCast_nonneg f
            omega
          simp [applyNetworkMessage, hd, hup, hfr, MSG_DELTA, MSG_SNAPSHOT]
        simp only [applyNetworkMessages, hstep]
        rw [ih _ (fun m hm => hNoSnap m (by simp [hm]))
          (fun m hm hmd => hDelta m (by simp [hm]) hmd)]
        have hfilter :
            (msg :: rest).filter (fun m => m.messageId == MSG_DELTA) =
              msg :: rest.filter (fun m => m.messageId == MSG_DELTA) := by
          simp [List.filter_cons, hd]
        rw [hfilter, List.foldl_cons]
        have hbody : applyDeltaBody ops w msg.data =
            ops.soaDeserialize (ops.observerDeserialize w o) s := by
          simp [applyDeltaBody, hup]
        rw [hbody]
      · have hstep : applyNetworkMessage ops ⟨-1, w⟩ msg = some ⟨-1, w⟩ := by
          simp [applyNetworkMessage, hns, hd]
        simp only [applyNetworkMessages, hstep]
        rw [ih _ (fun m hm => hNoSnap m (by simp [hm]))
          (fun m hm hmd => hDelta m (by simp [hm]) hmd)]
        have hfilter :
            (msg :: rest).filter (fun m => m.messageId == MSG_DELTA) =
              rest.filter (fun m => m.messageId == MSG_DELTA) := by
          simp [List.filter_cons, hd]
        rw [hfilter]

/-- Witness for the pre-snapshot theorem: two well-formed deltas around one
input message, drained on a fresh client, are both decoded and none discarded. -/
theorem preSnapshot_noDeltaDiscarded_witness :
    applyNetworkMessages natDeserOps ⟨-1, 0⟩
        [⟨MSG_DELTA, packDelta 5 [1] [2]⟩, ⟨MSG_USER_INPUT, [9]⟩,
          ⟨MSG_DELTA, packDelta 6 [] [3, 4]⟩] =
      ⟨-1, 26⟩ := by
  rw [preSnapshot_noDeltaDiscarded natDeserOps 0
    [⟨MSG_DELTA, packDelta 5 [1] [2]⟩, ⟨MSG_USER_INPUT, [9]⟩,
      ⟨MSG_DELTA, packDelta 6 [] [3, 4]⟩] (by decide) (by decide)]
  rfl

/-- An entry of the server `ConnectionQueue`
(src/transport/ConnectionQueue.ts). -/
inductive ConnEvent
  | connect (userId : String)
  | disconnect (userId : String)

/-- A message handed to the host transport during a tick: an addressed
`send(userId, messageId, data)` or a `broadcast(messageId, data)`. -/
inductive SentMsg
  | toUser (userId : String) (messageId : Nat) (data : List Nat)
  | broadcast (messageId : Nat) (data : List Nat)

/-- External collaborators of the server tick: the bitecs serializers of
`SerializeContext` (stateful, so they transform the world state and return
bytes), the player-spawning of `l_s_tick_handleConnections`, and the tick
systems between connection handling and `l_s_tick_serializeAndSend`. -/
structure SerOps (σ : Type _) where
  spawnPlayer : σ → σ
  snapshotSerialize : σ → σ × List Nat
  observerSerialize : σ → σ × List Nat
  soaSerialize : σ → σ × List Nat
  simulate : σ → σ

/-- State of `SerializeContext` (src/transport/SerializeContext.ts): the frame
counter (initialized to 0) plus the serializer/world state. -/
structure SerializeContext (σ : Type _) where
  frame : Nat
  world : σ

/-- Embedding of `l_s_tick_handleConnections`: each drained connect event
spawns the player entity and immediately sends that client a snapshot packed
with the *current* frame counter `ctx.frame`; disconnects only unregister. -/
def l_s_tick_handleConnections {σ : Type _} (ops : SerOps σ) :
    SerializeContext σ → List ConnEvent → SerializeContext σ × List SentMsg
  | ctx, [] => (ctx, [])
  | ctx, ConnEvent.connect u :: rest =>
      ((l_s_tick_handleConnections ops
          ⟨ctx.frame, (ops.snapshotSerialize (ops.spawnPlayer ctx.world)).1⟩ rest).1,
        SentMsg.toUser u MSG_SNAPSHOT
            (packSnapshot ctx.frame
              (ops.snapshotSerialize (ops.spawnPlayer ctx.world)).2) ::
          (l_s_tick_handleConnections ops
            ⟨ctx.frame, (ops.snapshotSerialize (ops.spawnPlayer ctx.world)).1⟩ rest).2)
  | ctx, ConnEvent.disconnect _ :: rest => l_s_tick_handleConnections ops ctx rest

/-- Embedding of `l_s_tick_serializeAndSend`: `ctx.frame++` first, then
observer serialization, then soa serialization, then one broadcast delta
packed with the incremented frame. -/
def l_s_tick_serializeAndSend {σ : Type _} (ops : SerOps σ)
    (ctx : SerializeContext σ) : SerializeContext σ × SentMsg :=
  (⟨ctx.frame + 1, (ops.soaSerialize (ops.observerSerialize ctx.world).1).1⟩,
    SentMsg.broadcast MSG_DELTA
      (packDelta (ctx.frame + 1) (ops.observerSerialize ctx.world).2
        (ops.soaSerialize (ops.observerSerialize ctx.world).1).2))

/-- One server tick in the system order fixed by `createLecs`:
`l_s_tick_handleConnections` first, the simulation systems in between, and
`l_s_tick_serializeAndSend` last; outbound messages in emission order. -/
def serverTick {σ : Type _} (ops : SerOps σ) (ctx : SerializeContext σ)
    (events : List ConnEvent) : SerializeContext σ × List SentMsg :=
  (⟨((l_s_tick_handleConnections ops ctx events).1.frame + 1),
      (ops.soaSerialize
        (ops.observerSerialize
          (ops.simulate (l_s_tick_handleConnections ops ctx events).1.world)).1).1⟩,
    (l_s_tick_handleConnections ops ctx events).2 ++
      [(l_s_tick_serializeAndSend ops
        ⟨(l_s_tick_handleConnections ops ctx events).1.frame,
          ops.simulate (l_s_tick_handleConnections ops ctx events).1.world⟩).2])

/-- A whole server session: the ticks' outbound message lists in order. -/
def serverRun {σ : Type _} (ops : SerOps σ) :
    SerializeContext σ → List (List ConnEvent) →
      SerializeContext σ × List (List SentMsg)
  | ctx, [] => (ctx, [])
  | ctx, events :: rest =>
      ((serverRun ops (serverTick ops ctx events).1 rest).1,
        (serverTick ops ctx events).2 ::
          (serverRun ops (serverTick ops ctx events).1 rest).2)

/-- Wire frame field (first four bytes, little-endian) of the delta broadcast
a tick ends with. -/
def wireFrameOfTick (sent : List SentMsg) : Nat :=
  match sent.getLast? with
  | some (SentMsg.broadcast _ data) => readU32 data 0
  | _ => 0

/-- Wire frame fields of the delta messages broadcast by a session started on
a fresh `SerializeContext` (frame 0). -/
def deltaFramesCarried {σ : Type _} (ops : SerOps σ) (s : σ)
    (evss : List (List ConnEvent)) : List Nat :=
  ((serverRun ops ⟨0, s⟩ evss).2).map wireFrameOfTick

theorem readU32_packDelta (f : Nat) (o s : List Nat) :
    readU32 (packDelta f o s) 0 = f % 4294967296 := by
  rw [show packDelta f o s = u32le f ++ (u32le o.length ++ (o ++ s)) from by
    simp [packDelta], readU32_u32le_append]

theorem handleConnections_frame {σ : Type _} (ops : SerOps σ)
    (events : List ConnEvent) :
    ∀ ctx : SerializeContext σ,
      (l_s_tick_handleConnections ops ctx events).1.frame = ctx.frame := by
  induction events with
  | nil => intro ctx; rfl
  | cons ev rest ih =>
      intro ctx
      cases ev with
      | connect u => exact ih ⟨ctx.frame, _⟩
      | disconnect u => exact ih ctx

theorem handleConnections_sent {σ : Type _} (ops : SerOps σ)
    (events : List ConnEvent) :
    ∀ ctx : SerializeContext σ,
      ∀ m ∈ (l_s_tick_handleConnections ops ctx events).2,
        ∃ u b, m = SentMsg.toUser u MSG_SNAPSHOT (packSnapshot ctx.frame b) := by
  induction events with
  | nil => intro ctx m hm; simp [l_s_tick_handleConnections] at hm
  | cons ev rest ih =>
      intro ctx m hm
      cases ev with
      | connect u =>
          simp only [l_s_tick_handleConnections, List.mem_cons] at hm
          rcases hm with hm | hm
          · exact ⟨u, _, hm⟩
          · exact ih ⟨ctx.frame, (ops.snapshotSerialize (ops.spawnPlayer ctx.world)).1⟩
              m hm
      | disconnect u => exact ih ctx m hm

theorem serverTick_frame {σ : Type _} (ops : SerOps σ) (ctx : SerializeContext σ)
    (events : List ConnEvent) :
    (serverTick ops ctx events).1.frame = ctx.frame + 1 := by
  simp [serverTick, handleConnections_frame]

theorem serverRun_frame {σ : Type _} (ops : SerOps σ) (evss : List (List ConnEvent)) :
    ∀ ctx : SerializeContext σ,
      (serverRun ops ctx evss).1.frame = ctx.frame + evss.length := by
  induction evss with
  | nil => intro ctx; rfl
  | cons events rest ih =>
      intro ctx
      show (serverRun ops (serverTick ops ctx events).1 rest).1.frame = _
      rw [ih, serverTick_frame]
      simp
      omega

theorem wireFrameOfTick_serverTick {σ : Type _} (ops : SerOps σ)
    (ctx : SerializeContext σ) (events : List ConnEvent) :
    wireFrameOfTick (serverTick ops ctx events).2 = (ctx.frame + 1) % 4294967296 := by
  rw [serverTick, wireFrameOfTick]
  rw [List.getLast?_concat]
  rw [l_s_tick_serializeAndSend]
  simp only [handleConnections_frame]
  exact readU32_packDelta _ _ _

theorem serverRun_carried {σ : Type _} (ops : SerOps σ) (evss : List (List ConnEvent)) :
    ∀ ctx : SerializeContext σ,
      ((serverRun ops ctx evss).2).map wireFrameOfTick =
        (List.range' (ctx.frame + 1) evss.length).map (· % 4294967296) := by
  induction evss with
  | nil => intro ctx; rfl
  | cons events rest ih =>
      intro ctx
      show wireFrameOfTick (serverTick ops ctx events).2 ::
          ((serverRun ops (serverTick ops ctx events).1 rest).2).map wireFrameOfTick = _
      rw [wireFrameOfTick_serverTick, ih, serverTick_frame]
      rfl

/-- Trivial serializer callbacks used to exercise the server-tick theorems. -/
def unitSerOps : SerOps Unit :=
  ⟨fun _ => (), fun _ => ((), []), fun _ => ((), []), fun _ => ((), []), fun _ => ()⟩

/-- C3 (counterexample): the delta's frame field is a `u32`, so in a session
of `2 ^ 32` ticks the wire-carried frame of the last delta wraps to `0` and
the carried values are not each one greater than their predecessor. -/
theorem frameMonotonicity_wrap_cex :
    ¬(∀ i a b : Nat,
        (deltaFramesCarried unitSerOps () (List.replicate 4294967296 []))[i]? =
            some a →
          (deltaFramesCarried unitSerOps () (List.replicate 4294967296 []))[i + 1]? =
            some b →
          b = a + 1) := by
  intro h
  have hL : deltaFramesCarried unitSerOps () (List.replicate 4294967296 []) =
      (List.range' 1 4294967296).map (· % 4294967296) := by
    have h2 := serverRun_carried unitSerOps (List.replicate 4294967296 [])
      ⟨0, ()⟩
    rwa [List.length_replicate, Nat.zero_add] at h2
  have ha : (deltaFramesCarried unitSerOps ()
      (List.replicate 4294967296 []))[(4294967294 : Nat)]? = some 4294967295 := by
    rw [hL, List.getElem?_map,
      List.getElem?_range' 1 1 (show 4294967294 < 4294967296 by norm_num)]
    norm_num
  have hb : (deltaFramesCarried unitSerOps ()
      (List.replicate 4294967296 []))[(4294967295 : Nat)]? = some 0 := by
    rw [hL, List.getElem?_map,
      List.getElem?_range' 1 1 (show 4294967295 < 4294967296 by norm_num)]
    norm_num
  have hcontra := h 4294967294 4294967295 0 ha
    (by rw [show (4294967294 : Nat) + 1 = 4294967295 from rfl]; exact hb)
  exact absurd hcontra.symm (by norm_num)

/-- C3 (amended): on a fresh server session the frame counter starts at 0 and
each tick increments it exactly once (inside `l_s_tick_serializeAndSend`,
before the payloads are packed), so after `n` ticks it equals `n` and the
`k`-th broadcast delta is packed with frame `k + 1`; the wire-carried `u32`
frames are `(k + 1) % 2 ^ 32`, which for any session shorter than `2 ^ 32`
ticks is the strictly increasing sequence `1, 2, …, n`, each exactly one
greater than its predecessor. -/
theorem frameMonotonicity (σ : Type _) (ops : SerOps σ) (s : σ)
    (evss : List (List ConnEvent)) :
    (serverRun ops ⟨0, s⟩ evss).1.frame = evss.length ∧
      (∀ (ctx : SerializeContext σ) (events : List ConnEvent),
        (serverTick ops ctx events).1.frame = ctx.frame + 1) ∧
      deltaFramesCarried ops s evss =
        (List.range' 1 evss.length).map (· % 4294967296) ∧
      (evss.length < 4294967296 →
        deltaFramesCarried ops s evss = List.range' 1 evss.length) := by
  have hcarried : deltaFramesCarried ops s evss =
      (List.range' 1 evss.length).map (· % 4294967296) := by
    have := serverRun_carried ops evss ⟨0, s⟩
    rwa [Nat.zero_add] at this
  refine ⟨by rw [serverRun_frame]; simp, serverTick_frame ops, hcarried, ?_⟩
  intro hn
  rw [hcarried]
  have : ∀ a ∈ List.range' 1 evss.length, a % 4294967296 = a := by
    intro a ha
    rw [List.mem_range'] at ha
    obtain ⟨i, hi, rfl⟩ := ha
    exact Nat.mod_eq_of_lt (by omega)
  rw [List.map_eq_map_iff.mpr this]
  exact List.map_id' _

/-- Witness for the frame-monotonicity theorem: a two-tick session broadcasts
deltas carrying frames 1 then 2. -/
theorem frameMonotonicity_witness :
    ([[], []] : List (List ConnEvent)).length < 4294967296 ∧
      deltaFramesCarried unitSerOps () [[], []] = [1, 2] := by
  have h := (frameMonotonicity Unit unitSerOps () [[], []]).2.2.2 (by norm_num)
  exact ⟨by norm_num, h.trans rfl⟩

/-- C4: a late joiner's snapshot is packed with the frame counter's current
value — the frame of the last completed tick (`past.length` after `past`
ticks) — because `l_s_tick_handleConnections` runs before the same tick's
frame increment; every snapshot sent during the tick precedes the tick's
delta broadcast, which is packed with `past.length + 1`. -/
theorem lateJoiner_snapshotFrame (σ : Type _) (ops : SerOps σ) (s : σ)
    (past : List (List ConnEvent)) (events : List ConnEvent) :
    (serverRun ops ⟨0, s⟩ past).1.frame = past.length ∧
      (∃ snaps o so,
        (serverTick ops (serverRun ops ⟨0, s⟩ past).1 events).2 =
          snaps ++ [SentMsg.broadcast MSG_DELTA (packDelta (past.length + 1) o so)] ∧
          ∀ m ∈ snaps,
            ∃ u b, m = SentMsg.toUser u MSG_SNAPSHOT (packSnapshot past.length b)) := by
  have hframe : (serverRun ops ⟨0, s⟩ past).1.frame = past.length := by
    rw [serverRun_frame]
    simp
  refine ⟨hframe, ?_⟩
  have heq : (serverTick ops (serverRun ops ⟨0, s⟩ past).1 events).2 =
      (l_s_tick_handleConnections ops (serverRun ops ⟨0, s⟩ past).1 events).2 ++
        [SentMsg.broadcast MSG_DELTA
          (packDelta (past.length + 1)
            (ops.observerSerialize (ops.simulate
              (l_s_tick_handleConnections ops (serverRun ops ⟨0, s⟩ past).1
                events).1.world)).2
            (ops.soaSerialize (ops.observerSerialize (ops.simulate
              (l_s_tick_handleConnections ops (serverRun ops ⟨0, s⟩ past).1
                events).1.world)).1).2)] := by
    simp only [serverTick, l_s_tick_serializeAndSend, handleConnections_frame, hframe]
  refine ⟨_, _, _, heq, ?_⟩
  intro m hm
  have := handleConnections_sent ops events (serverRun ops ⟨0, s⟩ past).1 m hm
  rwa [hframe] at this

/-- Witness for the late-joiner theorem: after one completed tick, a client
connecting in tick 2 receives a snapshot stamped with frame 1 while that
tick's delta carries frame 2. -/
theorem lateJoiner_snapshotFrame_witness :
    ∃ snaps o so,
      (serverTick unitSerOps (serverRun unitSerOps ⟨0, ()⟩ [[]]).1
          [ConnEvent.connect "u"]).2 =
        snaps ++ [SentMsg.broadcast MSG_DELTA (packDelta 2 o so)] ∧
        ∀ m ∈ snaps,
          ∃ u b, m = SentMsg.toUser u MSG_SNAPSHOT (packSnapshot 1 b) :=
  (lateJoiner_snapshotFrame Unit unitSerOps () [[]] [ConnEvent.connect "u"]).2

/-- Heap of live `ArrayBuffer` objects: a fresh-id counter plus the bytes of
each allocated buffer, so that buffer identity (aliasing, and detaching by a
consuming channel) is observable. -/
structure BufferHeap where
  nextId : Nat
  contents : List (Nat × List Nat)

/-- Bytes of a buffer. -/
def heapGet (h : BufferHeap) (b : Nat) : Option (List Nat) :=
  jsLookup h.contents b

/-- Every allocated id is below the fresh-id counter. -/
def heapWellFormed (h : BufferHeap) : Prop :=
  ∀ p ∈ h.contents, p.1 < h.nextId

/-- A channel that takes ownership of a buffer it sends (as the worker
transports do via `postMessage` transfer) detaches it: its bytes are gone. -/
def heapDetach (h : BufferHeap) (b : Nat) : BufferHeap :=
  ⟨h.nextId, h.contents.map (fun p => if p.1 = b then (p.1, []) else p)⟩

/-- Embedding of `HostTransport.broadcast`: for each registered client in map
order, allocate `data.slice(0)` — a fresh copy of the payload bytes — and send
it on that client's channel.  Returns the heap and the per-client send calls
`(userId, buffer id)` in order. -/
def hostBroadcast : List String → BufferHeap → Nat → BufferHeap × List (String × Nat)
  | [], h, _ => (h, [])
  | u :: rest, h, pid =>
      ((hostBroadcast rest
          ⟨h.nextId + 1, (h.nextId, (heapGet h pid).getD []) :: h.contents⟩ pid).1,
        (u, h.nextId) ::
          (hostBroadcast rest
            ⟨h.nextId + 1, (h.nextId, (heapGet h pid).getD []) :: h.contents⟩ pid).2)

theorem jsLookup_mem {α β : Type _} [DecidableEq α] (m : List (α × β)) (x : α)
    (v : β) (h : jsLookup m x = some v) : (x, v) ∈ m := by
  induction m with
  | nil => simp [jsLookup] at h
  | cons kv rest ih =>
      obtain ⟨k, w⟩ := kv
      rw [jsLookup] at h
      by_cases hk : k = x
      · subst hk
        rw [if_pos rfl, Option.some.injEq] at h
        subst h
        exact List.mem_cons_self _ _
      · rw [if_neg hk] at h
        exact List.mem_cons_of_mem _ (ih h)

theorem jsLookup_eq_none_iff {α β : Type _} [DecidableEq α] (m : List (α × β))
    (x : α) : jsLookup m x = none ↔ x ∉ m.map Prod.fst := by
  induction m with
  | nil => simp [jsLookup]
  | cons kv rest ih =>
      obtain ⟨k, w⟩ := kv
      by_cases hk : k = x
      · subst hk
        simp [jsLookup]
      · have hxk : ¬x = k := fun h => hk h.symm
        rw [jsLookup, if_neg hk, ih]
        simp [List.mem_cons, hxk]

theorem hostBroadcast_spec (clients : List String) :
    ∀ (h : BufferHeap) (pid : Nat) (bytes : List Nat),
      heapWellFormed h → heapGet h pid = some bytes →
      (hostBroadcast clients h pid).2.map Prod.fst = clients ∧
        (hostBroadcast clients h pid).2.map Prod.snd =
          List.range' h.nextId clients.length ∧
        (hostBroadcast clients h pid).1.nextId = h.nextId + clients.length ∧
        heapWellFormed (hostBroadcast clients h pid).1 ∧
        (∀ j, j < h.nextId →
          heapGet (hostBroadcast clients h pid).1 j = heapGet h j) ∧
        (∀ p ∈ (hostBroadcast clients h pid).2,
          heapGet (hostBroadcast clients h pid).1 p.2 = some bytes) := by
  induction clients with
  | nil =>
      intro h pid bytes hwf hget
      refine ⟨rfl, rfl, by simp [hostBroadcast], hwf, fun j hj => rfl, by simp [hostBroadcast]⟩
  | cons u rest ih =>
      intro h pid bytes hwf hget
      have hpid : pid < h.nextId := hwf _ (jsLookup_mem _ _ _ hget)
      have hcopy : (heapGet h pid).getD [] = bytes := by rw [hget]; rfl
      set h' : BufferHeap :=
        ⟨h.nextId + 1, (h.nextId, (heapGet h pid).getD []) :: h.contents⟩ with hh'
      have hwf' : heapWellFormed h' := by
        intro p hp
        rcases List.mem_cons.mp hp with hp | hp
        · subst hp; simp [h']
        · exact Nat.lt_trans (hwf _ hp) (Nat.lt_succ_self _)
      have hget' : heapGet h' pid = some bytes := by
        rw [show heapGet h' pid = if h.nextId = pid then some ((heapGet h pid).getD [])
            else heapGet h pid from rfl]
        rw [if_neg (by omega), hget]
      obtain ⟨hfst, hsnd, hnext, hwfr, hpres, hsent⟩ := ih h' pid bytes hwf' hget'
      have hnext1 : h'.nextId = h.nextId + 1 := rfl
      refine ⟨?_, ?_, ?_, hwfr, ?_, ?_⟩
      · show u :: (hostBroadcast rest h' pid).2.map Prod.fst = u :: rest
        rw [hfst]
      · show h.nextId :: (hostBroadcast rest h' pid).2.map Prod.snd = _
        rw [hsnd, hnext1]
        rfl
      · show (hostBroadcast rest h' pid).1.nextId = h.nextId + (rest.length + 1)
        rw [hnext, hnext1]
        omega
      · intro j hj
        show heapGet (hostBroadcast rest h' pid).1 j = heapGet h j
        rw [hpres j (by omega)]
        show (if h.nextId = j then some ((heapGet h pid).getD []) else heapGet h j) = _
        rw [if_neg (by omega)]
      · intro p hp
        rcases List.mem_cons.mp hp with hp | hp
        · subst hp
          show heapGet (hostBroadcast rest h' pid).1 h.nextId = some bytes
          rw [hpres h.nextId (by omega)]
          show (if h.nextId = h.nextId then some ((heapGet h pid).getD [])
              else heapGet h h.nextId) = some bytes
          rw [if_pos rfl, hcopy]
        · exact hsent p hp

theorem heapGet_detach_ne (h : BufferHeap) (b j : Nat) (hne : b ≠ j) :
    heapGet (heapDetach h b) j = heapGet h j := by
  show jsLookup (h.contents.map (fun p => if p.1 = b then (p.1, []) else p)) j =
    jsLookup h.contents j
  induction h.contents with
  | nil => rfl
  | cons kv rest ih =>
      obtain ⟨k, w⟩ := kv
      simp only [List.map_cons]
      by_cases hk : k = b
      · subst hk
        rw [if_pos (show (k, w).1 = k from rfl), jsLookup, jsLookup, if_neg hne,
          if_neg hne]
        exact ih
      · rw [if_neg hk, jsLookup, jsLookup]
        by_cases hj : k = j
        · rw [if_pos hj, if_pos hj]
        · rw [if_neg hj, if_neg hj]
          exact ih

/-- C7: `broadcast` calls `send` exactly once per registered client, in map
order, each time with a freshly allocated copy (`data.slice(0)`) whose bytes
equal the payload; the copies are pairwise distinct buffers, distinct from the
caller's buffer, and a channel that consumes (detaches) the buffer it was
handed affects neither any other client's copy nor the caller's original. -/
theorem hostTransport_broadcast_independentCopies (clients : List String)
    (h : BufferHeap) (pid : Nat) (bytes : List Nat) (hwf : heapWellFormed h)
    (hget : heapGet h pid = some bytes) :
    (hostBroadcast clients h pid).2.map Prod.fst = clients ∧
      ((hostBroadcast clients h pid).2.map Prod.snd).Nodup ∧
      (∀ p ∈ (hostBroadcast clients h pid).2,
        heapGet (hostBroadcast clients h pid).1 p.2 = some bytes) ∧
      (∀ p ∈ (hostBroadcast clients h pid).2, p.2 ≠ pid) ∧
      heapGet (hostBroadcast clients h pid).1 pid = some bytes ∧
      (∀ p ∈ (hostBroadcast clients h pid).2, ∀ q ∈ (hostBroadcast clients h pid).2,
        p.2 ≠ q.2 →
          heapGet (heapDetach (hostBroadcast clients h pid).1 p.2) q.2 = some bytes) ∧
      (∀ p ∈ (hostBroadcast clients h pid).2,
        heapGet (heapDetach (hostBroadcast clients h pid).1 p.2) pid = some bytes) := by
  obtain ⟨hfst, hsnd, hnext, hwfr, hpres, hsent⟩ :=
    hostBroadcast_spec clients h pid bytes hwf hget
  have hpid : pid < h.nextId := hwf _ (jsLookup_mem _ _ _ hget)
  have hidMem : ∀ p ∈ (hostBroadcast clients h pid).2, h.nextId ≤ p.2 := by
    intro p hp
    have : p.2 ∈ (hostBroadcast clients h pid).2.map Prod.snd :=
      List.mem_map_of_mem Prod.snd hp
    rw [hsnd, List.mem_range'] at this
    obtain ⟨i, hi, hpi⟩ := this
    omega
  have hpres' : heapGet (hostBroadcast clients h pid).1 pid = some bytes := by
    rw [hpres pid hpid, hget]
  refine ⟨hfst, ?_, hsent, ?_, hpres', ?_, ?_⟩
  · rw [hsnd]
    exact List.nodup_range' _ _
  · intro p hp
    have := hidMem p hp
    omega
  · intro p hp q hq hne
    rw [heapGet_detach_ne _ _ _ hne]
    exact hsent q hq
  · intro p hp
    have := hidMem p hp
    rw [heapGet_detach_ne _ _ _ (by omega)]
    exact hpres'

/-- Witness for the broadcast theorem: two clients, one pre-existing payload
buffer. -/
theorem hostTransport_broadcast_independentCopies_witness :
    (hostBroadcast ["a", "b"] ⟨1, [(0, [1, 2, 3])]⟩ 0).2.map Prod.fst = ["a", "b"] ∧
      heapGet (hostBroadcast ["a", "b"] ⟨1, [(0, [1, 2, 3])]⟩ 0).1 0 =
        some [1, 2, 3] := by
  have h := hostTransport_broadcast_independentCopies ["a", "b"]
    ⟨1, [(0, [1, 2, 3])]⟩ 0 [1, 2, 3]
    (by intro p hp; rcases List.mem_singleton.mp hp with rfl; decide) rfl
  exact ⟨h.1, h.2.2.2.2.1⟩

/-- Insertion into a JS `Set`: ordered, duplicate-free. -/
def jsSetAdd (s : List Nat) (h : Nat) : List Nat :=
  if h ∈ s then s else s ++ [h]

/-- `Set.delete`: removes the (unique) occurrence of the element. -/
def jsSetDelete (s : List Nat) (h : Nat) : List Nat :=
  s.filter (fun x => decide (x ≠ h))

/-- State of the generic multi-client router `HostTransport`
(HostTransport.ts): `clients` maps a userId to its channel, `unsubs` to the
unsubscribe closure returned by that channel's `onMessage`, and the three
handler sets hold the registered observers (modelled by numeric tokens). -/
structure HostTransport where
  clients : List (String × Nat)
  unsubs : List (String × Nat)
  messageHandlers : List Nat
  connectHandlers : List Nat
  disconnectHandlers : List Nat

/-- Observable effects of one `removeClient` call. -/
structure RemovalEffects where
  unsubsCalled : List Nat
  disconnectsFired : List Nat
  channelsDestroyed : List Nat

/-- Embedding of `HostTransport.addClient`: registers the channel and its
message subscription, then fires the connect observers (returned). -/
def hostAddClient (st : HostTransport) (u : String) (channel subTok : Nat) :
    HostTransport × List Nat :=
  ({ st with
      clients := jsMapSet st.clients u channel,
      unsubs := jsMapSet st.unsubs u subTok },
    st.connectHandlers)

/-- Embedding of `HostTransport.removeClient`: calls and drops the stored
unsubscribe closure if present; then, only if the client is known, removes it,
fires the disconnect observers, and destroys the channel. -/
def hostRemoveClient (st : HostTransport) (u : String) :
    HostTransport × RemovalEffects :=
  match jsLookup st.unsubs u with
  | some tok =>
      match jsLookup st.clients u with
      | none => ({ st with unsubs := jsMapDelete st.unsubs u }, ⟨[tok], [], []⟩)
      | some ch =>
          ({ st with
              unsubs := jsMapDelete st.unsubs u,
              clients := jsMapDelete st.clients u },
            ⟨[tok], st.disconnectHandlers, [ch]⟩)
  | none =>
      match jsLookup st.clients u with
      | none => (st, ⟨[], [], []⟩)
      | some ch =>
          ({ st with clients := jsMapDelete st.clients u },
            ⟨[], st.disconnectHandlers, [ch]⟩)

/-- Embedding of `HostTransport.send`: looks the client up and, if present,
invokes `channel.send(messageId, data)` — returned as the list of channel
invocations; an unknown userId sends nothing. -/
def hostSend (st : HostTransport) (u : String) (messageId bufId : Nat) :
    List (Nat × Nat × Nat) :=
  match jsLookup st.clients u with
  | some ch => [(ch, messageId, bufId)]
  | none => []

/-- Embedding of `HostTransport.destroy`: `removeClient` for every key of the
clients map (snapshot taken up front), then all three handler sets cleared. -/
def hostDestroy (st : HostTransport) : HostTransport × List RemovalEffects :=
  ({ ((st.clients.map Prod.fst).foldl
        (fun acc u =>
          ((hostRemoveClient acc.1 u).1, acc.2 ++ [(hostRemoveClient acc.1 u).2]))
        (st, [])).1 with
      messageHandlers := [], connectHandlers := [], disconnectHandlers := [] },
    ((st.clients.map Prod.fst).foldl
      (fun acc u =>
        ((hostRemoveClient acc.1 u).1, acc.2 ++ [(hostRemoveClient acc.1 u).2]))
      (st, [])).2)

/-- Handlers invoked (in registration order) when an inbound message reaches
the router — `onMessage` observers. -/
def hostDispatchMessage (st : HostTransport) : List Nat :=
  st.messageHandlers

/-- Unsubscribe closure returned by `HostTransport.onMessage`. -/
def hostUnsubMessage (st : HostTransport) (h : Nat) : HostTransport :=
  { st with messageHandlers := jsSetDelete st.messageHandlers h }

/-- Unsubscribe closure returned by `HostTransport.onConnect`. -/
def hostUnsubConnect (st : HostTransport) (h : Nat) : HostTransport :=
  { st with connectHandlers := jsSetDelete st.connectHandlers h }

/-- Unsubscribe closure returned by `HostTransport.onDisconnect`. -/
def hostUnsubDisconnect (st : HostTransport) (h : Nat) : HostTransport :=
  { st with disconnectHandlers := jsSetDelete st.disconnectHandlers h }

/-- State of a worker channel transport (`WorkerTransportHost` /
`WorkerTransportClient`): the handler set plus whether `handleMessage` is
still registered as event listener. -/
structure WorkerTransport where
  handlers : List Nat
  listenerRegistered : Bool

/-- Handlers invoked when a message event arrives: none once the listener has
been removed. -/
def workerDispatch (wt : WorkerTransport) : List Nat :=
  if wt.listenerRegistered then wt.handlers else []

/-- Unsubscribe closure returned by `WorkerTransport*.onMessage`. -/
def workerUnsubMessage (wt : WorkerTransport) (h : Nat) : WorkerTransport :=
  { wt with handlers := jsSetDelete wt.handlers h }

/-- Embedding of `WorkerTransport*.destroy`: `removeEventListener` plus
`handlers.clear()`. -/
def workerDestroy (_ : WorkerTransport) : WorkerTransport :=
  ⟨[], false⟩

theorem jsSetDelete_idem (s : List Nat) (h : Nat) :
    jsSetDelete (jsSetDelete s h) h = jsSetDelete s h := by
  rw [jsSetDelete, jsSetDelete, List.filter_filter]
  exact List.filter_congr (fun x _ => by cases decide (x ≠ h) <;> rfl)

theorem jsSetDelete_not_mem (s : List Nat) (h : Nat) : h ∉ jsSetDelete s h := by
  intro hmem
  rcases List.mem_filter.mp hmem with ⟨-, hdec⟩
  simp at hdec

theorem hostRemoveClient_handlers (st : HostTransport) (u : String) :
    ((hostRemoveClient st u).1).messageHandlers = st.messageHandlers ∧
      ((hostRemoveClient st u).1).connectHandlers = st.connectHandlers ∧
      ((hostRemoveClient st u).1).disconnectHandlers = st.disconnectHandlers := by
  unfold hostRemoveClient
  split <;> split <;> exact ⟨rfl, rfl, rfl⟩

theorem hostRemoveClient_clients (st : HostTransport) (u : String) :
    ((hostRemoveClient st u).1).clients =
      if jsLookup st.clients u = none then st.clients
      else jsMapDelete st.clients u := by
  unfold hostRemoveClient
  split <;> split <;> simp [*]

theorem removeAll_handlers (keys : List String) :
    ∀ (st : HostTransport) (acc : List RemovalEffects),
      ((keys.foldl
        (fun acc u =>
          ((hostRemoveClient acc.1 u).1, acc.2 ++ [(hostRemoveClient acc.1 u).2]))
        (st, acc)).1).messageHandlers = st.messageHandlers ∧
      ((keys.foldl
        (fun acc u =>
          ((hostRemoveClient acc.1 u).1, acc.2 ++ [(hostRemoveClient acc.1 u).2]))
        (st, acc)).1).connectHandlers = st.connectHandlers ∧
      ((keys.foldl
        (fun acc u =>
          ((hostRemoveClient acc.1 u).1, acc.2 ++ [(hostRemoveClient acc.1 u).2]))
        (st, acc)).1).disconnectHandlers = st.disconnectHandlers := by
  induction keys with
  | nil => exact fun st acc => ⟨rfl, rfl, rfl⟩
  | cons k rest ih =>
      intro st acc
      obtain ⟨h1, h2, h3⟩ := ih (hostRemoveClient st k).1
        (acc ++ [(hostRemoveClient st k).2])
      obtain ⟨g1, g2, g3⟩ := hostRemoveClient_handlers st k
      exact ⟨h1.trans g1, h2.trans g2, h3.trans g3⟩

theorem removeAll_clients (keys : List String) :
    ∀ (st : HostTransport) (acc : List RemovalEffects),
      ((keys.foldl
        (fun acc u =>
          ((hostRemoveClient acc.1 u).1, acc.2 ++ [(hostRemoveClient acc.1 u).2]))
        (st, acc)).1).clients =
        st.clients.filter (fun kv => decide (kv.1 ∉ keys)) := by
  induction keys with
  | nil => intro st acc; simp
  | cons k rest ih =>
      intro st acc
      rw [List.foldl_cons, ih, hostRemoveClient_clients]
      by_cases hk : jsLookup st.clients k = none
      · rw [if_pos hk]
        refine List.filter_congr ?_
        intro kv hkv
        have hne : kv.1 ≠ k := by
          intro heq
          exact (jsLookup_eq_none_iff st.clients k).mp hk
            (heq ▸ List.mem_map_of_mem Prod.fst hkv)
        by_cases h2 : kv.1 ∈ rest <;> simp [h2, hne]
      · rw [if_neg hk, jsMapDelete, List.filter_filter]
        refine List.filter_congr ?_
        intro kv hkv
        by_cases h1 : kv.1 = k <;> by_cases h2 : kv.1 ∈ rest <;> simp [h1, h2]

theorem hostDestroy_fields (st : HostTransport) :
    (hostDestroy st).1.clients = [] ∧
      (hostDestroy st).1.messageHandlers = [] ∧
      (hostDestroy st).1.connectHandlers = [] ∧
      (hostDestroy st).1.disconnectHandlers = [] := by
  refine ⟨?_, rfl, rfl, rfl⟩
  show ((((st.clients.map Prod.fst)).foldl _ (st, [])).1).clients = []
  rw [removeAll_clients]
  rw [List.filter_eq_nil_iff]
  intro kv hkv
  simp [List.mem_map_of_mem Prod.fst hkv]

theorem hostDestroy_of_cleared (st : HostTransport) (h1 : st.clients = [])
    (h2 : st.messageHandlers = []) (h3 : st.connectHandlers = [])
    (h4 : st.disconnectHandlers = []) : hostDestroy st = (st, []) := by
  obtain ⟨c, us, mh, ch, dh⟩ := st
  simp only at h1 h2 h3 h4
  subst h1 h2 h3 h4
  rfl

/-- C8: every unsubscribe closure returned by
`onMessage`/`onConnect`/`onDisconnect` is idempotent and the removed handler
is never invoked for a later event; `destroy()` is idempotent (a second call
changes nothing and produces no further removal effects) and afterwards no
client remains and no handler can be invoked.  The same holds for the worker
channel transports. -/
theorem unsubscribeAndDestroy_idempotent_quiescent :
    (∀ (st : HostTransport) (h : Nat),
        hostUnsubMessage (hostUnsubMessage st h) h = hostUnsubMessage st h ∧
          h ∉ hostDispatchMessage (hostUnsubMessage st h)) ∧
      (∀ (st : HostTransport) (h : Nat),
        hostUnsubConnect (hostUnsubConnect st h) h = hostUnsubConnect st h ∧
          h ∉ (hostUnsubConnect st h).connectHandlers) ∧
      (∀ (st : HostTransport) (h : Nat),
        hostUnsubDisconnect (hostUnsubDisconnect st h) h = hostUnsubDisconnect st h ∧
          h ∉ (hostUnsubDisconnect st h).disconnectHandlers) ∧
      (∀ st : HostTransport,
        hostDestroy (hostDestroy st).1 = ((hostDestroy st).1, []) ∧
          (hostDestroy st).1.clients = [] ∧
          hostDispatchMessage (hostDestroy st).1 = [] ∧
          (hostDestroy st).1.connectHandlers = [] ∧
          (hostDestroy st).1.disconnectHandlers = []) ∧
      (∀ (wt : WorkerTransport) (h : Nat),
        workerUnsubMessage (workerUnsubMessage wt h) h = workerUnsubMessage wt h ∧
          h ∉ workerDispatch (workerUnsubMessage wt h)) ∧
      (∀ wt : WorkerTransport,
        workerDestroy (workerDestroy wt) = workerDestroy wt ∧
          workerDispatch (workerDestroy wt) = []) := by
  refine ⟨?_, ?_, ?_, ?_, ?_, fun wt => ⟨rfl, rfl⟩⟩
  · intro st h
    constructor
    · show ({ st with messageHandlers := jsSetDelete (jsSetDelete st.messageHandlers h) h }
        : HostTransport) = _
      rw [jsSetDelete_idem]
      rfl
    · exact jsSetDelete_not_mem _ _
  · intro st h
    constructor
    · show ({ st with connectHandlers := jsSetDelete (jsSetDelete st.connectHandlers h) h }
        : HostTransport) = _
      rw [jsSetDelete_idem]
      rfl
    · exact jsSetDelete_not_mem _ _
  · intro st h
    constructor
    · show ({ st with disconnectHandlers := jsSetDelete (jsSetDelete st.disconnectHandlers h) h }
        : HostTransport) = _
      rw [jsSetDelete_idem]
      rfl
    · exact jsSetDelete_not_mem _ _
  · intro st
    obtain ⟨h1, h2, h3, h4⟩ := hostDestroy_fields st
    exact ⟨hostDestroy_of_cleared _ h1 h2 h3 h4, h1, h2, h3, h4⟩
  · intro wt h
    constructor
    · show ({ wt with handlers := jsSetDelete (jsSetDelete wt.handlers h) h }
        : WorkerTransport) = _
      rw [jsSetDelete_idem]
      rfl
    · rw [workerDispatch]
      by_cases hr : (workerUnsubMessage wt h).listenerRegistered
      · rw [if_pos hr]
        exact jsSetDelete_not_mem _ _
      · rw [if_neg hr]
        exact List.not_mem_nil h

/-- Witness for the unsubscribe/destroy theorem at concrete states. -/
theorem unsubscribeAndDestroy_idempotent_quiescent_witness :
    (2 : Nat) ∉ hostDispatchMessage (hostUnsubMessage ⟨[], [], [2, 3], [], []⟩ 2) ∧
      workerDispatch (workerDestroy ⟨[5], true⟩) = [] :=
  ⟨(unsubscribeAndDestroy_idempotent_quiescent.1 ⟨[], [], [2, 3], [], []⟩ 2).2,
    (unsubscribeAndDestroy_idempotent_quiescent.2.2.2.2.2 ⟨[5], true⟩).2⟩

/-- Invariant of the router: every userId with a stored unsubscribe closure is
a registered client.  It holds for a fresh transport and is preserved by
`addClient`. -/
theorem hostAddClient_keysInvariant (st : HostTransport) (u : String)
    (channel subTok : Nat)
    (hinv : ∀ k ∈ st.unsubs.map Prod.fst, k ∈ st.clients.map Prod.fst) :
    ∀ k ∈ ((hostAddClient st u channel subTok).1).unsubs.map Prod.fst,
      k ∈ ((hostAddClient st u channel subTok).1).clients.map Prod.fst := by
  intro k hk
  show k ∈ (jsMapSet st.clients u channel).map Prod.fst
  have hk' : k ∈ (jsMapSet st.unsubs u subTok).map Prod.fst := hk
  rw [jsMapSet_keys] at hk' ⊢
  by_cases h2 : u ∈ st.clients.map Prod.fst
  · rw [if_pos h2]
    by_cases h1 : u ∈ st.unsubs.map Prod.fst
    · exact hinv k (by rwa [if_pos h1] at hk')
    · rw [if_neg h1] at hk'
      rcases List.mem_append.mp hk' with hk' | hk'
      · exact hinv k hk'
      · rcases List.mem_singleton.mp hk' with rfl
        exact h2
  · rw [if_neg h2]
    by_cases h1 : u ∈ st.unsubs.map Prod.fst
    · exact List.mem_append_left _ (hinv k (by rwa [if_pos h1] at hk'))
    · rw [if_neg h1] at hk'
      rcases List.mem_append.mp hk' with hk' | hk'
      · exact List.mem_append_left _ (hinv k hk')
      · exact List.mem_append_right _ hk'

/-- The invariant is also preserved by `removeClient`. -/
theorem hostRemoveClient_keysInvariant (st : HostTransport) (u : String)
    (hinv : ∀ k ∈ st.unsubs.map Prod.fst, k ∈ st.clients.map Prod.fst) :
    ∀ k ∈ ((hostRemoveClient st u).1).unsubs.map Prod.fst,
      k ∈ ((hostRemoveClient st u).1).clients.map Prod.fst := by
  have hdel : ∀ (m : List (String × Nat)) (k : String),
      k ∈ (jsMapDelete m u).map Prod.fst → k ∈ m.map Prod.fst ∧ k ≠ u := by
    intro m k hk
    rcases List.mem_map.mp hk with ⟨kv, hkv, rfl⟩
    rcases List.mem_filter.mp hkv with ⟨hmem, hne⟩
    exact ⟨List.mem_map_of_mem Prod.fst hmem, by simpa using hne⟩
  have hdel' : ∀ (m : List (String × Nat)) (k : String),
      k ∈ m.map Prod.fst → k ≠ u → k ∈ (jsMapDelete m u).map Prod.fst := by
    intro m k hk hne
    rcases List.mem_map.mp hk with ⟨kv, hkv, rfl⟩
    exact List.mem_map_of_mem Prod.fst
      (List.mem_filter.mpr ⟨hkv, by simpa using hne⟩)
  intro k hk
  unfold hostRemoveClient at hk ⊢
  rcases h1 : jsLookup st.unsubs u with _ | tok <;>
    rcases h2 : jsLookup st.clients u with _ | ch <;>
      rw [h1, h2] at hk
  · exact hinv k hk
  · have hk' : k ∈ st.unsubs.map Prod.fst := hk
    have hne : k ≠ u := fun heq =>
      (jsLookup_eq_none_iff st.unsubs u).mp h1 (heq ▸ hk')
    exact hdel' _ _ (hinv k hk') hne
  · obtain ⟨hk', -⟩ := hdel _ _ hk
    exact hinv k hk'
  · obtain ⟨hk', hne⟩ := hdel _ _ hk
    exact hdel' _ _ (hinv k hk') hne

/-- C10: for a userId absent from the client map (and hence, by the router
invariant, from the unsubscribe map), `send` delivers nothing and
`removeClient` calls no unsubscribe closure, fires no disconnect observer,
destroys no channel, and leaves the transport state unchanged. -/
theorem hostTransport_unknownClient_noop (st : HostTransport) (u : String)
    (messageId bufId : Nat)
    (hinv : ∀ k ∈ st.unsubs.map Prod.fst, k ∈ st.clients.map Prod.fst)
    (hu : jsLookup st.clients u = none) :
    hostSend st u messageId bufId = [] ∧
      hostRemoveClient st u = (st, ⟨[], [], []⟩) := by
  have hnone : jsLookup st.unsubs u = none := by
    rw [jsLookup_eq_none_iff]
    intro hmem
    exact (jsLookup_eq_none_iff st.clients u).mp hu (hinv u hmem)
  constructor
  · rw [hostSend, hu]
  · rw [hostRemoveClient, hnone, hu]

/-- Witness for the unknown-client theorem: a transport with one client `"a"`
and an operation on the unknown userId `"b"`. -/
theorem hostTransport_unknownClient_noop_witness :
    hostSend ⟨[("a", 1)], [("a", 7)], [5], [6], [8]⟩ "b" 2 0 = [] ∧
      hostRemoveClient ⟨[("a", 1)], [("a", 7)], [5], [6], [8]⟩ "b" =
        (⟨[("a", 1)], [("a", 7)], [5], [6], [8]⟩, ⟨[], [], []⟩) :=
  hostTransport_unknownClient_noop ⟨[("a", 1)], [("a", 7)], [5], [6], [8]⟩ "b" 2 0
    (by decide) (by decide)
